import Mathlib

/-!
Shallow embedding of the session-orchestration layer of the support-agent
application: the text chat engine (ChatBot.tsx) and the voice engine
(LiveVoiceAgent.tsx).  Pure functions below are transcribed from the source;
stateful callbacks are modelled as explicit state-passing functions, with
external side effects recorded in append-only logs.  Times and audio clip
durations are modelled as rationals (seconds).
-/

/-- Role of a conversation turn: the source uses the string literals
"user" and "model". -/
inductive Role where
  | user
  | model
deriving DecidableEq, Repr

/-- A persisted chat message, `{id, role, text}` in ChatBot.tsx. -/
structure ChatMessage where
  id : String
  role : Role
  text : String
deriving DecidableEq, Repr

/-- An entry of the sanitized history handed to the service
(the `Content` records pushed onto `validHistory`). -/
structure HistoryContent where
  role : Role
  text : String
deriving DecidableEq, Repr

/-- The expectation toggle of the walk:
`expectedRole = expectedRole === "user" ? "model" : "user"`. -/
def flipRole : Role → Role
  | .user => .model
  | .model => .user

/-- Transcription of the check `msg.text.trim() !== ""`: the trimmed text
is nonempty exactly when some character is not whitespace. -/
def trimmedNonempty (s : String) : Bool :=
  s.data.any (fun c => !c.isWhitespace)

/-- `messages.filter(msg => msg.id !== "1" && msg.text.trim() !== "")`:
drop the seeded greeting turn (id "1") and turns with blank text. -/
def historyMessages (messages : List ChatMessage) : List ChatMessage :=
  messages.filter (fun msg => msg.id != "1" && trimmedNonempty msg.text)

/-- The alternation walk of initChat: push a message only when its role
matches the expected role, then flip the expectation; a non-matching
message is skipped. -/
def sanitizeWalk (expectedRole : Role) : List ChatMessage → List HistoryContent
  | [] => []
  | msg :: rest =>
      if msg.role = expectedRole then
        ⟨msg.role, msg.text⟩ :: sanitizeWalk (flipRole expectedRole) rest
      else
        sanitizeWalk expectedRole rest

/-- Whether the list is nonempty and its last entry has role user
(the condition guarding the trailing pop in initChat). -/
def endsWithUser (l : List HistoryContent) : Bool :=
  match l.getLast? with
  | some c => c.role == .user
  | none => false

/-- The full sanitizer of initChat (ChatBot.tsx lines 127 to 167): filter,
walk with expectedRole starting at user, then pop a trailing user turn. -/
def validHistory (messages : List ChatMessage) : List HistoryContent :=
  let walked := sanitizeWalk .user (historyMessages messages)
  if endsWithUser walked then walked.dropLast else walked

/-- Strict role alternation beginning with the given expected role. -/
def altFrom (r : Role) : List HistoryContent → Bool
  | [] => true
  | c :: rest => c.role == r && altFrom (flipRole r) rest

theorem altFrom_sanitizeWalk (msgs : List ChatMessage) :
    ∀ r : Role, altFrom r (sanitizeWalk r msgs) = true := by
  induction msgs with
  | nil => intro r; rfl
  | cons m rest ih =>
      intro r
      by_cases h : m.role = r
      · simp [sanitizeWalk, h, altFrom, ih]
      · simp [sanitizeWalk, h, ih]

theorem altFrom_dropLast :
    ∀ (l : List HistoryContent) (r : Role),
      altFrom r l = true → altFrom r l.dropLast = true := by
  intro l
  induction l with
  | nil => intro r _; rfl
  | cons c rest ih =>
      intro r h
      cases rest with
      | nil => rfl
      | cons c2 rest2 =>
          have h1 : (c.role == r) = true ∧ altFrom (flipRole r) (c2 :: rest2) = true := by
            simpa [altFrom, Bool.and_eq_true] using h
          have h2 := ih (flipRole r) h1.2
          simpa [List.dropLast_cons₂, altFrom, h1.1] using h2

theorem endsWithUser_cons_cons (a b : HistoryContent) (l : List HistoryContent) :
    endsWithUser (a :: b :: l) = endsWithUser (b :: l) := by
  simp [endsWithUser, List.getLast?_cons_cons]

theorem altFrom_dropLast_not_user :
    ∀ (l : List HistoryContent) (r : Role),
      altFrom r l = true → endsWithUser l = true →
        endsWithUser l.dropLast = false := by
  intro l
  induction l with
  | nil => intro r _ h; simp [endsWithUser] at h
  | cons c rest ih =>
      intro r h hl
      cases rest with
      | nil => rfl
      | cons c2 rest2 =>
          have h1 : (c.role == r) = true ∧ altFrom (flipRole r) (c2 :: rest2) = true := by
            simpa [altFrom, Bool.and_eq_true] using h
          have hl2 : endsWithUser (c2 :: rest2) = true := by
            rwa [endsWithUser_cons_cons] at hl
          cases rest2 with
          | nil =>
              have hc2 : (c2.role == flipRole r) = true := by
                simpa [altFrom, Bool.and_eq_true] using h1.2
              have hc2eq : c2.role = flipRole r := by
                exact of_decide_eq_true hc2
              have hc2u : c2.role = Role.user := by
                have : (c2.role == Role.user) = true := by
                  simpa [endsWithUser, List.getLast?] using hl2
                exact of_decide_eq_true this
              have hru : flipRole r = Role.user := hc2eq ▸ hc2u
              have hrm : r = Role.model := by
                cases r
                · simp [flipRole] at hru
                · rfl
              have hcr : c.role = r := of_decide_eq_true h1.1
              simp [List.dropLast, endsWithUser, List.getLast?, hcr, hrm]
          | cons c3 rest3 =>
              have hdrop : endsWithUser ((c2 :: c3 :: rest3).dropLast) = false :=
                ih (flipRole r) h1.2 hl2
              rw [List.dropLast_cons₂]
              rw [List.dropLast_cons₂] at hdrop ⊢
              rw [endsWithUser_cons_cons]
              exact hdrop

/-- C1: for every persisted turn log, the sanitized history produced by
initChat strictly alternates roles starting with user, and never ends on
a user turn (a trailing user turn is popped before submission). -/
theorem C1_history_sanitizer_alternates (messages : List ChatMessage) :
    altFrom Role.user (validHistory messages) = true ∧
      endsWithUser (validHistory messages) = false := by
  unfold validHistory
  have halt := altFrom_sanitizeWalk (historyMessages messages) Role.user
  by_cases h : endsWithUser (sanitizeWalk Role.user (historyMessages messages)) = true
  · simp only [h, if_true]
    exact ⟨altFrom_dropLast _ _ halt, altFrom_dropLast_not_user _ _ halt h⟩
  · have h' : endsWithUser (sanitizeWalk Role.user (historyMessages messages)) = false :=
      Bool.eq_false_iff.mpr h
    rw [if_neg (by simp [h'])]
    exact ⟨halt, h'⟩

/-- The scenario of the spec: input user "A", model "B", user "C" yields
user "A", model "B", the trailing user turn removed. -/
theorem validHistory_scenario :
    validHistory [⟨"2", .user, "A"⟩, ⟨"3", .model, "B"⟩, ⟨"4", .user, "C"⟩] =
      [⟨.user, "A"⟩, ⟨.model, "B"⟩] := by
  decide

/-! ## Voice engine: playback scheduler and message handler -/

/-- Times and durations in seconds (AudioContext.currentTime and
AudioBuffer.duration). -/
abbrev Time := ℚ

/-- An audio source scheduled on the output context: the time passed to
source.start and the duration of its buffer. -/
structure ScheduledClip where
  start : Time
  duration : Time
deriving DecidableEq, Repr

/-- Arguments of a tool invocation (the fields the handlers read from
fc.args). -/
structure ToolArgs where
  summary : Option String := none
  name : Option String := none
  phone : Option String := none
  email : Option String := none
  address : Option String := none
  deviceType : Option String := none
  serviceType : Option String := none
  issue : Option String := none
deriving DecidableEq, Repr

/-- `{id, name, args}` from message.toolCall.functionCalls. -/
structure FunctionCall where
  id : String
  name : String
  args : ToolArgs
deriving DecidableEq, Repr

/-- The BookingData payload handed to openBookingForm. -/
structure BookingData where
  name : Option String := none
  phone : Option String := none
  email : Option String := none
  address : Option String := none
  deviceType : Option String := none
  serviceType : Option String := none
  description : Option String := none
deriving DecidableEq, Repr

/-- `{id, name, response.result}` sent back through sendToolResponse. -/
structure VoiceToolResult where
  id : String
  name : String
  result : String
deriving DecidableEq, Repr

/-- State touched by the LiveVoiceAgent message handler.  External side
effects are recorded in append-only logs: one entry of bookingForwards per
openBookingForm call, one entry of whatsappUpdates per setWhatsappUrl call
(holding the summary embedded in the link), one entry of
toolResponseBatches per sendToolResponse call. -/
structure VoiceState where
  nextStartTime : Time
  sources : List ScheduledClip
  bookingForwards : List BookingData
  whatsappUpdates : List String
  toolResponseBatches : List (List VoiceToolResult)
deriving DecidableEq, Repr

def initialVoiceState : VoiceState := ⟨0, [], [], [], []⟩

/-- The args-to-BookingData mapping used by both engines: field for field,
with the issue argument mapped to the description field. -/
def toBookingData (args : ToolArgs) : BookingData :=
  { name := args.name, phone := args.phone, email := args.email,
    address := args.address, deviceType := args.deviceType,
    serviceType := args.serviceType, description := args.issue }

/-- One functionCall of the voice tool-call branch (LiveVoiceAgent.tsx
lines 144 to 173): the recognized names run their side effect and return
their confirmation, any other name returns "Unknown tool" untouched. -/
def voiceDispatch (st : VoiceState) (fc : FunctionCall) :
    VoiceState × VoiceToolResult :=
  if fc.name = "update_whatsapp_context" then
    ({ st with whatsappUpdates := st.whatsappUpdates ++ [fc.args.summary.getD ""] },
     ⟨fc.id, fc.name, "WhatsApp Link Updated successfully."⟩)
  else if fc.name = "open_booking_form" then
    ({ st with bookingForwards := st.bookingForwards ++ [toBookingData fc.args] },
     ⟨fc.id, fc.name, "Booking Form Opened/Updated on User Screen."⟩)
  else
    (st, ⟨fc.id, fc.name, "Unknown tool"⟩)

/-- `message.toolCall.functionCalls.map(...)` with its synchronous side
effects, in order, collecting the responses. -/
def voiceDispatchList : VoiceState → List FunctionCall →
    VoiceState × List VoiceToolResult
  | st, [] => (st, [])
  | st, fc :: rest =>
      ((voiceDispatchList (voiceDispatch st fc).1 rest).1,
        (voiceDispatch st fc).2 :: (voiceDispatchList (voiceDispatch st fc).1 rest).2)

/-- The whole tool-call branch: dispatch every call, then send one batched
sendToolResponse with all the responses. -/
def voiceHandleToolCall (st : VoiceState) (fcs : List FunctionCall) : VoiceState :=
  { (voiceDispatchList st fcs).1 with
      toolResponseBatches :=
        (voiceDispatchList st fcs).1.toolResponseBatches ++ [(voiceDispatchList st fcs).2] }

/-- Math.max on rational times, written so that it evaluates. -/
def qmax (a b : Time) : Time := if a ≤ b then b else a

theorem qmax_eq_max (a b : Time) : qmax a b = max a b := (max_def a b).symm

/-- The audio branch (lines 186 to 213): the cursor is first raised to
now, the source starts at the raised cursor, the cursor then advances by
the buffer duration, and the source joins the active set. -/
def schedule (st : VoiceState) (now d : Time) : VoiceState :=
  { st with nextStartTime := qmax st.nextStartTime now + d
          , sources := st.sources ++ [⟨qmax st.nextStartTime now, d⟩] }

/-- One inbound LiveServerMessage as the handler reads it: the
serverContent.interrupted flag, the optional toolCall batch, and the
duration of the decoded audio payload when the message carries inline
audio data. -/
structure LiveMsg where
  interrupted : Bool := false
  toolCalls : Option (List FunctionCall) := none
  audio : Option Time := none
deriving DecidableEq, Repr

/-- The onmessage callback (lines 123 to 214).  now is
outputAudioContext.currentTime at handling time.  On interruption the
handler stops and clears every active source, resets the cursor to now
and returns without touching the tool or audio branches. -/
def onmessage (st : VoiceState) (now : Time) (msg : LiveMsg) : VoiceState :=
  if msg.interrupted then
    { st with sources := [], nextStartTime := now }
  else
    let st1 :=
      match msg.toolCalls with
      | some fcs => voiceHandleToolCall st fcs
      | none => st
    match msg.audio with
    | some d => schedule st1 now d
    | none => st1

/-- Fold the handler over an inbound message trace with arrival clocks. -/
def runMessages : VoiceState → List (Time × LiveMsg) → VoiceState
  | st, [] => st
  | st, e :: rest => runMessages (onmessage st e.1 e.2) rest

/-- Pairwise disjointness of the half-open playback windows
[start, start + duration). -/
def windowsDisjoint : List ScheduledClip → Bool
  | [] => true
  | c :: rest =>
      rest.all (fun c2 =>
        decide (c.start + c.duration ≤ c2.start) ||
          decide (c2.start + c2.duration ≤ c.start)) &&
        windowsDisjoint rest

/-- The clips are chained left to right: each start is at or after the
lower bound, each duration is nonnegative, and the bound advances to the
end of the clip. -/
def chainOk : Time → List ScheduledClip → Bool
  | _, [] => true
  | t, c :: rest =>
      decide (t ≤ c.start) && decide (0 ≤ c.duration) &&
        chainOk (c.start + c.duration) rest

/-- The end of the last clip, or the lower bound when there is none. -/
def lastEnd : Time → List ScheduledClip → Time
  | t, [] => t
  | _, c :: rest => lastEnd (c.start + c.duration) rest

/-- Scheduler invariant: the active set is chained from some bound and
the cursor sits at or after the end of the last clip. -/
def SchedInv (st : VoiceState) : Prop :=
  ∃ lo : Time, chainOk lo st.sources = true ∧ lastEnd lo st.sources ≤ st.nextStartTime

theorem chainOk_le_start :
    ∀ (l : List ScheduledClip) (lo : Time), chainOk lo l = true →
      ∀ c ∈ l, lo ≤ c.start := by
  intro l
  induction l with
  | nil => intro lo _ c hc; cases hc
  | cons c0 rest ih =>
      intro lo h c hc
      have h0 : (lo ≤ c0.start) ∧ (0 ≤ c0.duration) ∧
          chainOk (c0.start + c0.duration) rest = true := by
        have h' := h
        simp only [chainOk, Bool.and_eq_true, decide_eq_true_eq] at h'
        exact ⟨h'.1.1, h'.1.2, h'.2⟩
      rcases List.mem_cons.mp hc with hceq | hc
      · subst hceq; exact h0.1
      · have := ih (c0.start + c0.duration) h0.2.2 c hc
        have hstep : lo ≤ c0.start + c0.duration :=
          le_trans h0.1 (le_add_of_nonneg_right h0.2.1)
        exact le_trans hstep this

theorem windowsDisjoint_of_chainOk :
    ∀ (l : List ScheduledClip) (lo : Time), chainOk lo l = true →
      windowsDisjoint l = true := by
  intro l
  induction l with
  | nil => intro lo _; rfl
  | cons c0 rest ih =>
      intro lo h
      have h0 : (lo ≤ c0.start) ∧ (0 ≤ c0.duration) ∧
          chainOk (c0.start + c0.duration) rest = true := by
        simp only [chainOk, Bool.and_eq_true, decide_eq_true_eq] at h
        exact ⟨h.1.1, h.1.2, h.2⟩
      have hall : rest.all (fun c2 =>
          decide (c0.start + c0.duration ≤ c2.start) ||
            decide (c2.start + c2.duration ≤ c0.start)) = true := by
        rw [List.all_eq_true]
        intro c2 hc2
        have := chainOk_le_start rest (c0.start + c0.duration) h0.2.2 c2 hc2
        simp [this]
      simp only [windowsDisjoint, Bool.and_eq_true]
      exact ⟨hall, ih (c0.start + c0.duration) h0.2.2⟩

theorem chainOk_snoc :
    ∀ (l : List ScheduledClip) (lo : Time) (c : ScheduledClip),
      chainOk lo l = true → lastEnd lo l ≤ c.start → 0 ≤ c.duration →
        chainOk lo (l ++ [c]) = true := by
  intro l
  induction l with
  | nil =>
      intro lo c _ hle hd
      simp only [List.nil_append, chainOk, Bool.and_eq_true, decide_eq_true_eq]
      exact ⟨⟨hle, hd⟩, trivial⟩
  | cons c0 rest ih =>
      intro lo c h hle hd
      have h0 : (lo ≤ c0.start) ∧ (0 ≤ c0.duration) ∧
          chainOk (c0.start + c0.duration) rest = true := by
        simp only [chainOk, Bool.and_eq_true, decide_eq_true_eq] at h
        exact ⟨h.1.1, h.1.2, h.2⟩
      have hle' : lastEnd (c0.start + c0.duration) rest ≤ c.start := hle
      simp only [List.cons_append, chainOk, Bool.and_eq_true, decide_eq_true_eq]
      exact ⟨⟨h0.1, h0.2.1⟩, ih (c0.start + c0.duration) c h0.2.2 hle' hd⟩

theorem lastEnd_snoc :
    ∀ (l : List ScheduledClip) (lo : Time) (c : ScheduledClip),
      lastEnd lo (l ++ [c]) = c.start + c.duration := by
  intro l
  induction l with
  | nil => intro lo c; rfl
  | cons c0 rest ih => intro lo c; exact ih (c0.start + c0.duration) c

/-- The decoded audio duration carried by a message, when there is one,
is nonnegative (an AudioBuffer duration is never negative). -/
def msgDurOk (m : LiveMsg) : Bool :=
  match m.audio with
  | none => true
  | some d => decide (0 ≤ d)

theorem voiceDispatch_playback (st : VoiceState) (fc : FunctionCall) :
    (voiceDispatch st fc).1.sources = st.sources ∧
      (voiceDispatch st fc).1.nextStartTime = st.nextStartTime := by
  by_cases h1 : fc.name = "update_whatsapp_context"
  · simp [voiceDispatch, h1]
  · by_cases h2 : fc.name = "open_booking_form" <;> simp [voiceDispatch, h1, h2]

theorem voiceDispatchList_playback :
    ∀ (fcs : List FunctionCall) (st : VoiceState),
      (voiceDispatchList st fcs).1.sources = st.sources ∧
        (voiceDispatchList st fcs).1.nextStartTime = st.nextStartTime := by
  intro fcs
  induction fcs with
  | nil => intro st; exact ⟨rfl, rfl⟩
  | cons fc rest ih =>
      intro st
      have h1 := voiceDispatch_playback st fc
      have h2 := ih (voiceDispatch st fc).1
      simp only [voiceDispatchList]
      exact ⟨by rw [h2.1, h1.1], by rw [h2.2, h1.2]⟩

theorem voiceHandleToolCall_playback (st : VoiceState) (fcs : List FunctionCall) :
    (voiceHandleToolCall st fcs).sources = st.sources ∧
      (voiceHandleToolCall st fcs).nextStartTime = st.nextStartTime := by
  have h := voiceDispatchList_playback fcs st
  unfold voiceHandleToolCall
  exact ⟨h.1, h.2⟩

theorem schedInv_schedule (st : VoiceState) (now d : Time)
    (hd : 0 ≤ d) (h : SchedInv st) : SchedInv (schedule st now d) := by
  obtain ⟨lo, hchain, hend⟩ := h
  refine ⟨lo, ?_, ?_⟩
  · apply chainOk_snoc _ _ _ hchain _ hd
    calc lastEnd lo st.sources ≤ st.nextStartTime := hend
      _ ≤ qmax st.nextStartTime now := by
          rw [qmax_eq_max]; exact le_max_left _ _
  · show lastEnd lo (st.sources ++ [⟨qmax st.nextStartTime now, d⟩]) ≤
      qmax st.nextStartTime now + d
    rw [lastEnd_snoc]

theorem schedInv_toolCall (st : VoiceState) (fcs : List FunctionCall)
    (h : SchedInv st) : SchedInv (voiceHandleToolCall st fcs) := by
  obtain ⟨lo, h1, h2⟩ := h
  have hp := voiceHandleToolCall_playback st fcs
  exact ⟨lo, by rw [hp.1]; exact h1, by rw [hp.1, hp.2]; exact h2⟩

theorem schedInv_onmessage (st : VoiceState) (now : Time) (msg : LiveMsg)
    (hd : msgDurOk msg = true) (h : SchedInv st) :
    SchedInv (onmessage st now msg) := by
  unfold onmessage
  by_cases hi : msg.interrupted = true
  · rw [if_pos hi]
    exact ⟨now, rfl, le_refl now⟩
  · rw [if_neg hi]
    cases htc : msg.toolCalls with
    | none =>
        cases ha : msg.audio with
        | none => exact h
        | some d =>
            have hd' : 0 ≤ d := by
              simp only [msgDurOk, ha, decide_eq_true_eq] at hd
              exact hd
            exact schedInv_schedule st now d hd' h
    | some fcs =>
        cases ha : msg.audio with
        | none => exact schedInv_toolCall st fcs h
        | some d =>
            have hd' : 0 ≤ d := by
              simp only [msgDurOk, ha, decide_eq_true_eq] at hd
              exact hd
            exact schedInv_schedule _ now d hd' (schedInv_toolCall st fcs h)

theorem schedInv_runMessages :
    ∀ (evs : List (Time × LiveMsg)) (st : VoiceState),
      (∀ e ∈ evs, msgDurOk e.2 = true) → SchedInv st →
        SchedInv (runMessages st evs) := by
  intro evs
  induction evs with
  | nil => intro st _ h; exact h
  | cons e rest ih =>
      intro st hall h
      simp only [runMessages]
      exact ih (onmessage st e.1 e.2)
        (fun x hx => hall x (List.mem_cons_of_mem e hx))
        (schedInv_onmessage st e.1 e.2 (hall e (List.mem_cons_self e rest)) h)

/-- C3: along any inbound message trace whose decoded clips have
nonnegative durations, the active set never holds two clips with
overlapping half-open playback windows; moreover each schedule call
starts its clip at Math.max(nextStartTime, now) and then advances the
cursor by exactly the clip duration. -/
theorem C3_no_overlapping_windows (evs : List (Time × LiveMsg))
    (hdur : ∀ e ∈ evs, msgDurOk e.2 = true) :
    windowsDisjoint (runMessages initialVoiceState evs).sources = true ∧
      ∀ (st : VoiceState) (now d : Time),
        (schedule st now d).sources
            = st.sources ++ [⟨qmax st.nextStartTime now, d⟩] ∧
          (schedule st now d).nextStartTime = qmax st.nextStartTime now + d := by
  constructor
  · have h := schedInv_runMessages evs initialVoiceState hdur ⟨0, rfl, le_refl 0⟩
    obtain ⟨lo, h1, _⟩ := h
    exact windowsDisjoint_of_chainOk _ lo h1
  · intro st now d; exact ⟨rfl, rfl⟩

def evsC3 : List (Time × LiveMsg) :=
  [(0, { audio := some 2 }), (1, { audio := some 1 }),
   (10, { interrupted := true }), (10, { audio := some 3 })]

/-- Witness for C3 at a concrete four-message trace containing an
interruption. -/
theorem C3_no_overlapping_windows_witness :
    (∀ e ∈ evsC3, msgDurOk e.2 = true) ∧
      windowsDisjoint (runMessages initialVoiceState evsC3).sources = true :=
  ⟨by decide, (C3_no_overlapping_windows evsC3 (by decide)).1⟩

theorem onmessage_audio_only (st : VoiceState) (now d : Time) :
    onmessage st now { audio := some d } = schedule st now d := rfl

/-- C2: an interrupted message stops and discards every active source
(the set becomes empty), resets the cursor to the current time, plays
none of the audio bundled with it, and any later audio-only message then
starts its clip exactly at its own current time, whatever the cursor
held before the interruption. -/
theorem C2_interrupt_resets (st : VoiceState) (now : Time) (msg : LiveMsg)
    (hi : msg.interrupted = true) :
    (onmessage st now msg).sources = [] ∧
      (onmessage st now msg).nextStartTime = now ∧
      ∀ (now2 d : Time), now ≤ now2 →
        (onmessage (onmessage st now msg) now2 { audio := some d }).sources
          = [⟨now2, d⟩] := by
  have h1 : onmessage st now msg = { st with sources := [], nextStartTime := now } := by
    unfold onmessage; rw [if_pos hi]
  refine ⟨by rw [h1], by rw [h1], ?_⟩
  intro now2 d h2
  rw [h1, onmessage_audio_only]
  have hq : qmax now now2 = now2 := by
    rw [qmax_eq_max]; exact max_eq_right h2
  simp [schedule, hq]

def stC2 : VoiceState := ⟨10, [⟨0, 2⟩, ⟨2, 2⟩], [], [], []⟩

def msgC2 : LiveMsg := { interrupted := true, audio := some 4 }

/-- Witness for C2: interruption at time 5 with two clips active and an
audio payload bundled, then an audio message at time 6. -/
theorem C2_interrupt_resets_witness :
    msgC2.interrupted = true ∧ (5 : Time) ≤ 6 ∧
      (onmessage stC2 5 msgC2).sources = [] ∧
      (onmessage stC2 5 msgC2).nextStartTime = 5 ∧
      (onmessage (onmessage stC2 5 msgC2) 6 { audio := some 3 }).sources
        = [⟨6, 3⟩] := by
  have h := C2_interrupt_resets stC2 5 msgC2 rfl
  exact ⟨rfl, by decide, h.1, h.2.1, h.2.2 6 3 (by decide)⟩

/-- C10: when a message carries interrupted=true the handler returns
before the tool-call branch, so tool invocations bundled in that message
are never dispatched: no response batch is sent back and no tool side
effect runs. -/
theorem C10_interrupt_skips_tool_calls (st : VoiceState) (now : Time) (msg : LiveMsg)
    (hi : msg.interrupted = true) :
    (onmessage st now msg).toolResponseBatches = st.toolResponseBatches ∧
      (onmessage st now msg).bookingForwards = st.bookingForwards ∧
      (onmessage st now msg).whatsappUpdates = st.whatsappUpdates := by
  have h1 : onmessage st now msg = { st with sources := [], nextStartTime := now } := by
    unfold onmessage; rw [if_pos hi]
  rw [h1]
  exact ⟨rfl, rfl, rfl⟩

def fcC10 : FunctionCall := ⟨"call-10", "open_booking_form", { name := some "Ada" }⟩

def msgC10 : LiveMsg :=
  { interrupted := true, toolCalls := some [fcC10], audio := some 1 }

def stC10 : VoiceState := ⟨3, [⟨1, 1⟩], [], [], []⟩

/-- Witness for C10: an interrupted message that also bundles a tool
invocation and an audio payload leaves every effect log untouched. -/
theorem C10_interrupt_skips_tool_calls_witness :
    msgC10.interrupted = true ∧
      ((onmessage stC10 4 msgC10).toolResponseBatches = stC10.toolResponseBatches ∧
        (onmessage stC10 4 msgC10).bookingForwards = stC10.bookingForwards ∧
        (onmessage stC10 4 msgC10).whatsappUpdates = stC10.whatsappUpdates) :=
  ⟨rfl, C10_interrupt_skips_tool_calls stC10 4 msgC10 rfl⟩

/-! ## Text engine: stream consumption and tool dispatch -/

/-- Text accumulated in the placeholder turn, modelled as a character
list so that concatenation reasoning is available. -/
abbrev Txt := List Char

/-- A functionCall part of a streamed chunk in handleSendMessage,
together with the text of the model response to its acknowledgment
(toolResp.text); an empty ackText models a missing or empty field. -/
structure ChatFunctionCall where
  name : String
  args : ToolArgs
  ackText : Txt
deriving DecidableEq, Repr

/-- `{name, response.result}` of the functionResponse sent back through
sendMessage (the text engine sends no id). -/
structure ChatToolResponse where
  name : String
  result : String
deriving DecidableEq, Repr

/-- Mutable state of one handleSendMessage stream loop: the accumulated
fullResponseText plus append-only logs of the openBookingForm calls and
of the functionResponse sends. -/
structure ChatStreamState where
  fullResponseText : Txt
  bookingForwards : List BookingData
  toolResponses : List ChatToolResponse
deriving DecidableEq, Repr

def initialChatStream : ChatStreamState := ⟨[], [], []⟩

/-- One functionCall of the chunk loop (ChatBot.tsx lines 268 to 302):
only open_booking_form is handled; the draft is forwarded, the
acknowledgment is sent, and the acknowledgment response text, when
nonempty, is appended to the placeholder turn.  Any other name is
silently skipped. -/
def processCall (st : ChatStreamState) (call : ChatFunctionCall) : ChatStreamState :=
  if call.name = "open_booking_form" then
    let st1 := { st with
      bookingForwards := st.bookingForwards ++ [toBookingData call.args],
      toolResponses := st.toolResponses ++
        [⟨"open_booking_form", "Form Opened with prefilled data."⟩] }
    if call.ackText.isEmpty then st1
    else { st1 with fullResponseText := st1.fullResponseText ++ call.ackText }
  else st

/-- One streamed chunk: its functionCall parts and its own text
(`c.text`, empty when absent). -/
structure ChatChunk where
  functionCalls : List ChatFunctionCall
  text : Txt
deriving DecidableEq, Repr

/-- One iteration of the for-await chunk loop: handle the tool calls in
order, then append the chunk text to the placeholder turn. -/
def processChunk (st : ChatStreamState) (ch : ChatChunk) : ChatStreamState :=
  let st1 := ch.functionCalls.foldl processCall st
  { st1 with fullResponseText := st1.fullResponseText ++ ch.text }

/-- The whole stream loop over the chunks, in receipt order. -/
def runChunks (st : ChatStreamState) (chs : List ChatChunk) : ChatStreamState :=
  chs.foldl processChunk st

/-- The assembly order stated by the spec: for each fragment, first the
acknowledgment-triggered continuation text of each handled tool call,
then the fragment text itself, fragments in receipt order with no
reordering. -/
def specOrderedText (chs : List ChatChunk) : Txt :=
  (chs.map (fun ch =>
    (((ch.functionCalls.filter (fun c => c.name == "open_booking_form")).map
        ChatFunctionCall.ackText).flatten) ++ ch.text)).flatten

theorem processCall_text (st : ChatStreamState) (call : ChatFunctionCall) :
    (processCall st call).fullResponseText =
      st.fullResponseText ++
        (if call.name == "open_booking_form" then call.ackText else []) := by
  by_cases h : call.name = "open_booking_form"
  · by_cases he : call.ackText.isEmpty
    · have : call.ackText = [] := List.isEmpty_iff.mp he
      simp [processCall, h, he, this]
    · simp [processCall, h, he]
  · simp [processCall, h]

theorem foldl_processCall_text :
    ∀ (calls : List ChatFunctionCall) (st : ChatStreamState),
      (calls.foldl processCall st).fullResponseText =
        st.fullResponseText ++
          ((calls.filter (fun c => c.name == "open_booking_form")).map
              ChatFunctionCall.ackText).flatten := by
  intro calls
  induction calls with
  | nil => intro st; simp
  | cons call rest ih =>
      intro st
      simp only [List.foldl_cons]
      rw [ih (processCall st call), processCall_text]
      by_cases h : call.name = "open_booking_form"
      · simp [h, List.filter_cons, List.append_assoc]
      · simp [h, List.filter_cons]

theorem runChunks_text :
    ∀ (chs : List ChatChunk) (st : ChatStreamState),
      (runChunks st chs).fullResponseText =
        st.fullResponseText ++ specOrderedText chs := by
  intro chs
  induction chs with
  | nil => intro st; simp [runChunks, specOrderedText]
  | cons ch rest ih =>
      intro st
      simp only [runChunks, List.foldl_cons] at ih ⊢
      rw [ih (processChunk st ch)]
      have hchunk : (processChunk st ch).fullResponseText =
          st.fullResponseText ++
            ((((ch.functionCalls.filter (fun c => c.name == "open_booking_form")).map
                ChatFunctionCall.ackText).flatten) ++ ch.text) := by
        simp only [processChunk]
        rw [foldl_processCall_text, List.append_assoc]
      rw [hchunk]
      simp [specOrderedText, List.append_assoc]

/-- C6: the text assembled by the stream loop equals the spec ordering:
for every fragment, the tool acknowledgment continuation text comes
first, then the fragment text, then all later fragments, with plain text
kept in receipt order. -/
theorem C6_stream_text_order (chs : List ChatChunk) :
    (runChunks initialChatStream chs).fullResponseText = specOrderedText chs := by
  rw [runChunks_text chs initialChatStream]
  rfl

/-! ## Tool dispatch: replay, result strings, unknown tools -/

/-- Names the voice dispatcher recognizes. -/
def recognizedTool (fc : FunctionCall) : Bool :=
  fc.name == "update_whatsapp_context" || fc.name == "open_booking_form"

/-- Total number of external side effects the voice engine has
triggered: booking-form forwards plus contact-link updates. -/
def effectCount (st : VoiceState) : Nat :=
  st.bookingForwards.length + st.whatsappUpdates.length

def fcReplay : FunctionCall :=
  ⟨"call-1", "open_booking_form", { name := some "Sam" }⟩

/-- C5 counterexample: dispatching the same invocation id twice triggers
the booking side effect twice, not once; a replayed id is not a no-op. -/
theorem C5_counterexample_replay_not_idempotent :
    (voiceDispatchList initialVoiceState [fcReplay, fcReplay]).1.bookingForwards.length = 2 ∧
      ¬ ((voiceDispatchList initialVoiceState
            [fcReplay, fcReplay]).1.bookingForwards.length = 1) := by
  decide

theorem voiceDispatchList_effectCount :
    ∀ (fcs : List FunctionCall) (st : VoiceState),
      effectCount (voiceDispatchList st fcs).1 =
        effectCount st + (fcs.filter recognizedTool).length := by
  intro fcs
  induction fcs with
  | nil => intro st; simp [voiceDispatchList]
  | cons fc rest ih =>
      intro st
      simp only [voiceDispatchList]
      rw [ih (voiceDispatch st fc).1]
      by_cases h1 : fc.name = "update_whatsapp_context"
      · simp [voiceDispatch, effectCount, recognizedTool, List.filter_cons, h1]
        omega
      · by_cases h2 : fc.name = "open_booking_form"
        · simp [voiceDispatch, effectCount, recognizedTool, List.filter_cons, h1, h2]
          omega
        · simp [voiceDispatch, effectCount, recognizedTool, List.filter_cons, h1, h2]

theorem processCall_bookingForwards (st : ChatStreamState) (call : ChatFunctionCall) :
    (processCall st call).bookingForwards.length =
      st.bookingForwards.length +
        (if call.name == "open_booking_form" then 1 else 0) := by
  by_cases h : call.name = "open_booking_form"
  · by_cases he : call.ackText.isEmpty <;> simp [processCall, h, he]
  · simp [processCall, h]

theorem foldl_processCall_bookingForwards :
    ∀ (calls : List ChatFunctionCall) (cst : ChatStreamState),
      (calls.foldl processCall cst).bookingForwards.length =
        cst.bookingForwards.length +
          (calls.filter (fun c => c.name == "open_booking_form")).length := by
  intro calls
  induction calls with
  | nil => intro cst; simp
  | cons call rest ih =>
      intro cst
      simp only [List.foldl_cons]
      rw [ih (processCall cst call), processCall_bookingForwards]
      by_cases h : call.name = "open_booking_form"
      · simp [h, List.filter_cons]
        omega
      · simp [h, List.filter_cons]

/-- C5 amended: neither dispatcher keeps a replay record and neither
reads an invocation id before running an effect, so every dispatch of a
recognized invocation triggers its side effect exactly once per
dispatch: in the voice engine the side-effect count grows by exactly the
number of recognized invocations dispatched, whatever their ids, and in
the text engine the booking-forward log grows by exactly the number of
open_booking_form calls processed. -/
theorem C5_amended_one_effect_per_dispatch :
    (∀ (fcs : List FunctionCall) (st : VoiceState),
      effectCount (voiceDispatchList st fcs).1 =
        effectCount st + (fcs.filter recognizedTool).length) ∧
    (∀ (calls : List ChatFunctionCall) (cst : ChatStreamState),
      (calls.foldl processCall cst).bookingForwards.length =
        cst.bookingForwards.length +
          (calls.filter (fun c => c.name == "open_booking_form")).length) :=
  ⟨voiceDispatchList_effectCount, foldl_processCall_bookingForwards⟩

def fcBooking7 : FunctionCall :=
  ⟨"call-7", "open_booking_form", { name := some "Sam", issue := some "screen flicker" }⟩

/-- C7 counterexample: in the voice engine the ToolResult for
open_booking_form carries a different result string than the one the
claim states for both engines. -/
theorem C7_counterexample_voice_result_string :
    (voiceDispatch initialVoiceState fcBooking7).2.result ≠
        "Form Opened with prefilled data." ∧
      (voiceDispatch initialVoiceState fcBooking7).2.result =
        "Booking Form Opened/Updated on User Screen." := by
  decide

/-- C7 amended: in both engines an open_booking_form invocation maps the
issue argument to the description field and forwards the draft to the
form collaborator; the acknowledged result string is "Form Opened with
prefilled data." in the text engine but "Booking Form Opened/Updated on
User Screen." in the voice engine. -/
theorem C7_amended_booking_dispatch (vst : VoiceState) (cst : ChatStreamState)
    (fid : String) (args : ToolArgs) (ack : Txt) :
    (toBookingData args).description = args.issue ∧
      (voiceDispatch vst ⟨fid, "open_booking_form", args⟩).1.bookingForwards
          = vst.bookingForwards ++ [toBookingData args] ∧
      (voiceDispatch vst ⟨fid, "open_booking_form", args⟩).2
          = ⟨fid, "open_booking_form", "Booking Form Opened/Updated on User Screen."⟩ ∧
      (processCall cst ⟨"open_booking_form", args, ack⟩).bookingForwards
          = cst.bookingForwards ++ [toBookingData args] ∧
      (processCall cst ⟨"open_booking_form", args, ack⟩).toolResponses
          = cst.toolResponses ++
              [⟨"open_booking_form", "Form Opened with prefilled data."⟩] := by
  refine ⟨rfl, ?_, ?_, ?_, ?_⟩
  · simp [voiceDispatch]
  · simp [voiceDispatch]
  · by_cases he : (ack : Txt).isEmpty <;> simp [processCall, he]
  · by_cases he : (ack : Txt).isEmpty <;> simp [processCall, he]

def fcUnknownChat : ChatFunctionCall := ⟨"fancy_tool", {}, "ok".data⟩

/-- C8 counterexample: the text engine produces no ToolResult at all for
an unrecognized invocation, rather than exactly one with result
"Unknown tool". -/
theorem C8_counterexample_text_engine_silent :
    (processCall initialChatStream fcUnknownChat).toolResponses.length = 0 ∧
      ¬ ((processCall initialChatStream fcUnknownChat).toolResponses.length = 1) := by
  decide

theorem voiceDispatchList_length :
    ∀ (fcs : List FunctionCall) (st : VoiceState),
      (voiceDispatchList st fcs).2.length = fcs.length := by
  intro fcs
  induction fcs with
  | nil => intro st; rfl
  | cons fc rest ih =>
      intro st
      simp only [voiceDispatchList, List.length_cons]
      rw [ih (voiceDispatch st fc).1]

/-- C8 amended: the voice engine answers an unrecognized invocation with
result "Unknown tool", with no side effect, and produces exactly one
response per invocation of a batch; the text engine skips an
unrecognized invocation entirely, producing no ToolResult and no side
effect for it. -/
theorem C8_amended_unknown_tool (st : VoiceState) (cst : ChatStreamState)
    (fc : FunctionCall) (cc : ChatFunctionCall)
    (h1 : fc.name ≠ "update_whatsapp_context")
    (h2 : fc.name ≠ "open_booking_form")
    (h3 : cc.name ≠ "open_booking_form") :
    voiceDispatch st fc = (st, ⟨fc.id, fc.name, "Unknown tool"⟩) ∧
      processCall cst cc = cst ∧
      ∀ (fcs : List FunctionCall) (st2 : VoiceState),
        (voiceDispatchList st2 fcs).2.length = fcs.length := by
  refine ⟨by simp [voiceDispatch, h1, h2], by simp [processCall, h3], ?_⟩
  intro fcs st2
  exact voiceDispatchList_length fcs st2

def fcUnknownVoice : FunctionCall := ⟨"call-8", "fancy_tool", {}⟩

/-- Witness for the amended C8 at the concrete unknown name fancy_tool. -/
theorem C8_amended_unknown_tool_witness :
    fcUnknownVoice.name ≠ "update_whatsapp_context" ∧
      fcUnknownVoice.name ≠ "open_booking_form" ∧
      fcUnknownChat.name ≠ "open_booking_form" ∧
      (voiceDispatch initialVoiceState fcUnknownVoice
          = (initialVoiceState, ⟨"call-8", "fancy_tool", "Unknown tool"⟩) ∧
        processCall initialChatStream fcUnknownChat = initialChatStream ∧
        ∀ (fcs : List FunctionCall) (st2 : VoiceState),
          (voiceDispatchList st2 fcs).2.length = fcs.length) := by
  refine ⟨by decide, by decide, by decide, ?_⟩
  have h := C8_amended_unknown_tool initialVoiceState initialChatStream
    fcUnknownVoice fcUnknownChat (by decide) (by decide) (by decide)
  exact h

/-! ## Voice engine: capture path and mute flag -/

/-- Capture-path state of LiveVoiceAgent.  isMuted is the React state
value; capturedMuted is the value of isMuted captured by the
onaudioprocess closure when startInputStream installed it.  toggleMute
re-renders with a new isMuted value but the installed closure is never
reassigned, so the capture callback keeps reading the captured value.
sentFrames counts the pcm blobs handed to session.sendRealtimeInput. -/
structure MicState where
  isMuted : Bool
  capturedMuted : Option Bool
  sentFrames : Nat
deriving DecidableEq, Repr

def initialMicState : MicState := ⟨false, none, 0⟩

/-- startInputStream: assign processor.onaudioprocess, whose closure
captures the isMuted value of the render that started the session. -/
def installProcessor (st : MicState) : MicState :=
  { st with capturedMuted := some st.isMuted }

/-- toggleMute: setIsMuted(!isMuted); nothing re-registers the
onaudioprocess closure. -/
def toggleMute (st : MicState) : MicState :=
  { st with isMuted := !st.isMuted }

/-- One capture buffer arriving at the onaudioprocess callback: the guard
reads the captured isMuted; when it is false the buffer is encoded with
createPcmBlob and sent. -/
def onAudioProcess (st : MicState) : MicState :=
  match st.capturedMuted with
  | none => st
  | some m => if m then st else { st with sentFrames := st.sentFrames + 1 }

/-- C4 at the failing input: a session is started unmuted (closure
installed with isMuted false), the user toggles mute, and a capture
buffer arrives: the mute flag is set, yet a wire blob is still produced
and sent, because the callback reads the stale captured flag. -/
theorem C4_mute_stale_closure :
    (toggleMute (installProcessor initialMicState)).isMuted = true ∧
      (onAudioProcess (toggleMute (installProcessor initialMicState))).sentFrames = 1 := by
  decide

/-! ## Voice engine: transport teardown -/

/-- The status values of the voice session. -/
inductive VoiceStatus where
  | disconnected
  | connecting
  | connected
  | error
deriving DecidableEq, Repr

/-- Teardown-relevant state of the voice component: each flag records
that the corresponding teardown action of handleDisconnect has run. -/
structure AgentState where
  status : VoiceStatus
  isConnected : Bool
  tracksStopped : Bool
  nodesDisconnected : Bool
  contextsClosed : Bool
  animationCancelled : Bool
  sessionCleared : Bool
deriving DecidableEq, Repr

/-- handleDisconnect (LiveVoiceAgent.tsx lines 325 to 345): stop the
capture tracks, disconnect the nodes, close both audio contexts, cancel
the animation frame, null the session handles, set status disconnected. -/
def handleDisconnect (st : AgentState) : AgentState :=
  { st with
      isConnected := false
      status := .disconnected
      tracksStopped := true
      nodesDisconnected := true
      contextsClosed := true
      animationCancelled := true
      sessionCleared := true }

/-- The transport onclose callback: it calls handleDisconnect. -/
def oncloseHandler (st : AgentState) : AgentState := handleDisconnect st

/-- The transport onerror callback (lines 219 to 222): it only logs and
sets status to error. -/
def onerrorHandler (st : AgentState) : AgentState := { st with status := .error }

/-- All five teardown actions have run. -/
def tornDown (st : AgentState) : Bool :=
  st.tracksStopped && st.nodesDisconnected && st.contextsClosed &&
    st.animationCancelled && st.sessionCleared

def connectedAgent : AgentState :=
  ⟨.connected, true, false, false, false, false, false⟩

/-- C9 counterexample: from a live connected state, onerror sets status
error but performs none of the teardown that onclose performs. -/
theorem C9_counterexample_onerror_no_teardown :
    tornDown (onerrorHandler connectedAgent) = false ∧
      (onerrorHandler connectedAgent).status = .error ∧
      tornDown (oncloseHandler connectedAgent) = true := by
  decide

/-- C9 amended: onclose runs the full teardown of an explicit disconnect
and sets the state to disconnected; onerror only sets the state to error
and changes no teardown flag. -/
theorem C9_amended_teardown (st : AgentState) :
    oncloseHandler st = handleDisconnect st ∧
      tornDown (handleDisconnect st) = true ∧
      (handleDisconnect st).status = .disconnected ∧
      (onerrorHandler st).status = .error ∧
      tornDown (onerrorHandler st) = tornDown st := by
  exact ⟨rfl, rfl, rfl, rfl, rfl⟩
